import Mathlib

/-!
Shallow embedding of the core of `aio-terminal` (Rust): the
screen-to-transcript engine of `src/agent_view.rs` and the PTY terminal
layer of `src/terminal.rs`.  Text is modelled as `List Char` (Rust `&str`
viewed as its character sequence); byte chunks as `List Nat`.
-/

namespace AioTerminal

/-! ## Transcript engine data model (`agent_view.rs`) -/

/-- Message kinds of `agent_view.rs` (`MessageKind`): `User`, `Assistant`,
`Tool { name, collapsed }`. -/
inductive MessageKind where
  | user : MessageKind
  | assistant : MessageKind
  | tool (name : List Char) (collapsed : Bool) : MessageKind
  deriving DecidableEq, Repr

/-- Chat messages of `agent_view.rs` (`ChatMessage { kind, content }`). -/
structure ChatMessage where
  kind : MessageKind
  content : List Char
  deriving DecidableEq, Repr

/-- The fields of `AgentView` that the transcript engine reads and writes:
`messages`, `last_screen_text`, `accumulating_assistant`.  The UI-only
fields (`input_buf`, `raw_buf`, `id`, `grab_focus`, `show_raw`) and the
owned `Terminal` are external to the engine's state transitions. -/
structure AgentViewState where
  messages : List ChatMessage
  last_screen_text : List Char
  accumulating_assistant : Bool
  deriving DecidableEq, Repr

/-- The engine state produced by `AgentView::new`. -/
def initAgentView : AgentViewState :=
  { messages := [], last_screen_text := [], accumulating_assistant := false }

/-! ## String helpers mirroring the Rust `str` methods used -/

/-- ASCII whitespace recognised by the model of Rust `char::is_whitespace`
(the inputs of interest are ASCII plus the fixed markers, none of which are
exotic whitespace). -/
def isWs (c : Char) : Bool :=
  c = ' ' || c = '\t' || c = '\n' || c = '\r'

/-- Model of Rust `str::trim`: strip leading and trailing whitespace. -/
def rustTrim (s : List Char) : List Char :=
  ((s.dropWhile isWs).reverse.dropWhile isWs).reverse

/-- Strip one trailing carriage return, as Rust `str::lines` does per line. -/
def stripCr (s : List Char) : List Char :=
  if s.getLast? = some '\r' then s.dropLast else s

/-- Model of Rust `str::lines`: split on newline, drop a final empty fragment
(produced by a trailing newline or the empty string), strip a trailing
carriage return from each line. -/
def rustLines (s : List Char) : List (List Char) :=
  let parts := s.splitOn '\n'
  let parts := if parts.getLast? = some [] then parts.dropLast else parts
  parts.map stripCr

/-! ## Line classification (`is_tool_line`, `extract_tool_name`) -/

/-- Model of Rust `str::contains(pattern)`: the pattern occurs as a contiguous
substring. -/
def rustContains (s p : List Char) : Bool :=
  p.isPrefixOf s ||
    match s with
    | [] => false
    | _ :: rest => rustContains rest p

/-- The fixed marker list of `is_tool_line` in `agent_view.rs`: tool
identifiers followed by an opening parenthesis, and the braille spinner
glyphs. -/
def toolPatterns : List (List Char) :=
  ["Read(", "Write(", "Edit(", "Bash(", "bash(",
   "MultiEdit(", "Glob(", "Grep(", "LS(",
   "TodoRead(", "TodoWrite(",
   "⠋", "⠙", "⠹", "⠸", "⠼", "⠴", "⠦", "⠧", "⠇", "⠏"].map String.toList

/-- Predicate `is_tool_line` of `agent_view.rs`: the line contains any of the
fixed patterns. -/
def is_tool_line (line : List Char) : Bool :=
  toolPatterns.any (fun p => rustContains line p)

/-- The fixed tool-identifier list of `extract_tool_name`, in source
order. -/
def toolNames : List (List Char) :=
  ["Read", "Write", "Edit", "Bash", "bash",
   "MultiEdit", "Glob", "Grep", "LS",
   "TodoRead", "TodoWrite"].map String.toList

/-- Function `extract_tool_name` of `agent_view.rs`: first identifier `t` in the
fixed list such that the line contains `t` followed by an opening
parenthesis, defaulting to `"Tool"`. -/
def extract_tool_name (line : List Char) : List Char :=
  match toolNames.find? (fun t => rustContains line (t ++ ['('])) with
  | some t => t
  | none => "Tool".toList

/-- The fixed prompt markers of `parse_new_content`: the prompt glyph with
a space, `"> "`, `"$ "`. -/
def promptMarkers : List (List Char) :=
  ["❯ ", "> ", "$ "].map String.toList

/-- The prompt-echo test of `parse_new_content`: the (trimmed) line starts
with one of the fixed prompt markers. -/
def isPromptLine (trimmed : List Char) : Bool :=
  promptMarkers.any (fun p => p.isPrefixOf trimmed)

/-! ## The per-line classification step of `parse_new_content` -/

/-- Apply `f` to the last element of a list, as Rust `Vec::last_mut`
mutation does. -/
def modifyLast (f : ChatMessage → ChatMessage) : List ChatMessage → List ChatMessage
  | [] => []
  | [m] => [f m]
  | m :: rest => m :: modifyLast f rest

/-- Test `matches!(kind, MessageKind::Assistant)`. -/
def isAssistant : MessageKind → Bool
  | MessageKind.assistant => true
  | _ => false

/-- The blank-line mutation: push a newline onto the message content, but
only when the message is an assistant message (the code checks the kind of
the last message before mutating it). -/
def appendNewlineIfAssistant (m : ChatMessage) : ChatMessage :=
  if isAssistant m.kind then { m with content := m.content ++ ['\n'] } else m

/-- Whether the last message of the list exists and is an assistant
message (the `if let Some(last) ... matches!` check of the code). -/
def lastIsAssistant (msgs : List ChatMessage) : Bool :=
  match msgs.getLast? with
  | some m => isAssistant m.kind
  | none => false

/-- One iteration of the `for line in &lines` loop of
`AgentView::parse_new_content`:
blank line, tool line, echoed prompt, assistant accumulation, in that
order. -/
def parse_line (s : AgentViewState) (line : List Char) : AgentViewState :=
  let trimmed := rustTrim line
  if trimmed = [] then
    if s.accumulating_assistant then
      { s with messages := modifyLast appendNewlineIfAssistant s.messages }
    else s
  else if is_tool_line trimmed then
    { s with accumulating_assistant := false,
             messages := s.messages ++
               [{ kind := MessageKind.tool (extract_tool_name trimmed) true,
                  content := trimmed }] }
  else if isPromptLine trimmed then
    { s with accumulating_assistant := false }
  else if s.accumulating_assistant ∧ lastIsAssistant s.messages then
    { s with
      messages := modifyLast
        (fun m => { m with content := m.content ++ '\n' :: trimmed }) s.messages }
  else
    { s with accumulating_assistant := true,
             messages := s.messages ++
               [{ kind := MessageKind.assistant, content := trimmed }] }

/-- Function `AgentView::parse_new_content`: split the delta into lines and fold
the per-line classification over them. -/
def parse_new_content (s : AgentViewState) (content : List Char) : AgentViewState :=
  (rustLines content).foldl parse_line s

/-! ## Delta computation and the poll (`AgentView::poll_output`) -/

/-- Length of the longest common prefix, as computed by
`chars().zip(...).take_while(|(a, b)| a == b).count()`. -/
def commonPrefixLen : List Char → List Char → Nat
  | a :: as, b :: bs => if a = b then commonPrefixLen as bs + 1 else 0
  | _, _ => 0

/-- UTF-8 byte length of a decoded string, as Rust `String::len`
(`Char.utf8Size` agrees with Rust `char::len_utf8`). -/
def byteLen : List Char → Nat
  | [] => 0
  | c :: rest => c.utf8Size + byteLen rest

/-- Model of the Rust byte slice `&s[n..]` on a decoded string: drop the
first `n` bytes.  `none` models the panic Rust raises when `n` is not a
character boundary (or lies past the end of the string). -/
def byteDrop (s : List Char) (n : Nat) : Option (List Char) :=
  if n = 0 then some s
  else
    match s with
    | [] => none
    | c :: rest => if n < c.utf8Size then none else byteDrop rest (n - c.utf8Size)

/-- The `new_content` computation of `AgentView::poll_output`, at byte
fidelity.  The cheap path compares byte lengths
(`current_text.len() > last.len()`), tests the byte prefix
(`starts_with`, which on valid UTF-8 coincides with the character
prefix), and slices at `last`'s byte length.  The fallback counts the
common prefix in characters (`chars().zip(...).count()`) but compares
that count against the byte length of `current_text` and uses it as a
byte index (`new[common..]`), so the computation panics (`none`) whenever
that index is not a character boundary. -/
def compute_new_content (last cur : List Char) : Option (List Char) :=
  if byteLen last < byteLen cur ∧ last.isPrefixOf cur then
    byteDrop cur (byteLen last)
  else if cur ≠ last then
    let common := commonPrefixLen last cur
    if common < byteLen cur then byteDrop cur common else some []
  else some []

/-- Function `AgentView::poll_output`.  `current_text` is the session
snapshot's full text (`Terminal::screen_text()`), supplied as a parameter
since it is read from the shared emulation state.  `none` models the
panic propagating out of the delta computation, which in the source
happens before `last_screen_text` is updated. -/
def poll_output (s : AgentViewState) (current_text : List Char) :
    Option AgentViewState :=
  if current_text = s.last_screen_text then some s
  else
    (compute_new_content s.last_screen_text current_text).map
      (fun new_content =>
        let s1 : AgentViewState := { s with last_screen_text := current_text }
        if rustTrim new_content = [] then s1
        else parse_new_content s1 new_content)

/-- The enter handler of `AgentView::render`: trim the input buffer; when
non-empty, append a `User` message, write the text then a carriage return
to the PTY, and reset `accumulating_assistant`.  Returns the new engine
state together with the list of chunks written to the session. -/
def submit_input (s : AgentViewState) (input_buf : List Char) :
    AgentViewState × List (List Char) :=
  let text := rustTrim input_buf
  if text = [] then (s, [])
  else
    ({ s with
       messages := s.messages ++ [{ kind := MessageKind.user, content := text }],
       accumulating_assistant := false },
     [text, ['\r']])

/-! ## PTY background reader loop (`Terminal::new` in `terminal.rs`)

The spawned thread loops on `reader.read(&mut buf)`:
`Ok(0)` breaks, `Ok(n)` feeds `buf[..n]` to the vt100 parser when the
mutex lock succeeds (a poisoned lock skips the update), `Err(_)` breaks.
We model the sequence of read outcomes the OS would deliver as a list of
events and the shared emulation state generically, with `process` the
state-update function applied under the lock. -/

/-- One outcome of the blocking `read` call: a successful read of a chunk
(empty chunk = zero-length read, i.e. end-of-stream) together with
whether the mutex lock succeeds at that point, or an I/O error. -/
inductive ReadEvent where
  | ok (chunk : List Nat) (lockOk : Bool) : ReadEvent
  | err : ReadEvent
  deriving DecidableEq, Repr

/-- Whether a read outcome makes the loop `break`: a zero-length read or
an error. -/
def isExitEvent : ReadEvent → Bool
  | ReadEvent.ok chunk _ => chunk = []
  | ReadEvent.err => true

/-- The reader loop of `Terminal::new`, run over a finite list of read
outcomes.  Returns the final shared state and whether the loop has
terminated (`true` exactly on a zero-length read or an error; `false`
means the outcome list ran out with the loop still blocked on the next
read). -/
def reader_loop {σ : Type} (process : σ → List Nat → σ) :
    List ReadEvent → σ → σ × Bool
  | [], p => (p, false)
  | ReadEvent.err :: _, p => (p, true)
  | ReadEvent.ok chunk lockOk :: rest, p =>
    if chunk = [] then (p, true)
    else reader_loop process rest (if lockOk then process p chunk else p)

/-- The chunks the loop actually feeds to the emulation state: those of
successful non-empty reads before the first exit outcome, for which the
lock was available. -/
def appliedChunks : List ReadEvent → List (List Nat)
  | [] => []
  | ReadEvent.err :: _ => []
  | ReadEvent.ok chunk lockOk :: rest =>
    if chunk = [] then []
    else (if lockOk then [chunk] else []) ++ appliedChunks rest

/-! ## Terminal session and resize (`terminal.rs`) -/

/-- The size-relevant interface of the external `vt100::Parser` shared
emulation state: its current dimensions plus the trace of `set_size`
calls made into it (so "no call into the emulation state" is
observable). -/
structure Vt100State where
  rows : Nat
  cols : Nat
  set_size_calls : List (Nat × Nat)
  deriving DecidableEq, Repr

/-- Call `vt100::Parser::set_size(rows, cols)`: update the dimensions and
record the call. -/
def Vt100State.set_size (p : Vt100State) (rows cols : Nat) : Vt100State :=
  { rows := rows, cols := cols,
    set_size_calls := p.set_size_calls ++ [(rows, cols)] }

/-- The `Terminal` struct of `terminal.rs`, restricted to the fields
`resize` touches: the shared parser, the stored `rows`/`cols` (u16 in the
source; only compared for equality and stored, so `Nat` is faithful), and
the session id.  The writer and child handles are external resources. -/
structure Terminal where
  parser : Vt100State
  rows : Nat
  cols : Nat
  id : Nat
  deriving DecidableEq, Repr

/-- Method `Terminal::resize` of `terminal.rs`: guarded on the dimensions differing; when they
differ, store the new dimensions and call `set_size` on the parser (the
source skips `set_size` if the mutex is poisoned; the single-threaded
model takes the lock as always available). -/
def Terminal.resize (t : Terminal) (rows cols : Nat) : Terminal :=
  if rows ≠ t.rows ∨ cols ≠ t.cols then
    { t with rows := rows, cols := cols, parser := t.parser.set_size rows cols }
  else t

/-! ## Color resolution (`vt100_color_to_egui`, `ansi_256_to_color32`) -/

/-- An egui `Color32` RGB value (alpha is always opaque here). -/
structure Color32 where
  r : Nat
  g : Nat
  b : Nat
  deriving DecidableEq, Repr

/-- Constant `theme::TERMINAL_BG = Color32::from_rgb(255, 255, 255)`. -/
def TERMINAL_BG : Color32 := { r := 255, g := 255, b := 255 }

/-- Colors of `vt100::Color`: default, a 256-entry indexed color (u8), or a direct
RGB triple of u8 components. -/
inductive Vt100Color where
  | default : Vt100Color
  | idx (i : Fin 256) : Vt100Color
  | rgb (r g b : Fin 256) : Vt100Color
  deriving DecidableEq, Repr

/-- The fixed 16-entry ANSI table `BASIC` of `ansi_256_to_color32`. -/
def BASIC : List (Nat × Nat × Nat) :=
  [(0, 0, 0), (205, 49, 49), (13, 188, 121), (229, 229, 16),
   (36, 114, 200), (188, 63, 188), (17, 168, 205), (229, 229, 229),
   (102, 102, 102), (241, 76, 76), (35, 209, 139), (245, 245, 67),
   (59, 142, 234), (214, 112, 214), (41, 184, 219), (255, 255, 255)]

/-- Function `ansi_256_to_color32` of `terminal.rs`.  All arithmetic stays below
256, so u8 arithmetic and `Nat` arithmetic agree. -/
def ansi_256_to_color32 (idx : Fin 256) : Color32 :=
  if idx.val < 16 then
    match BASIC.getD idx.val (0, 0, 0) with
    | (r, g, b) => { r := r, g := g, b := b }
  else if idx.val < 232 then
    let i := idx.val - 16
    let r := (i / 36) % 6
    let g := (i / 6) % 6
    let b := i % 6
    let toVal := fun (v : Nat) => if v = 0 then 0 else 55 + 40 * v
    { r := toVal r, g := toVal g, b := toVal b }
  else
    let v := 8 + 10 * (idx.val - 232)
    { r := v, g := v, b := v }

/-- Function `vt100_color_to_egui` of `terminal.rs`: theme fallbacks for the
default color (text color 36/36/36 for the foreground,
`theme::TERMINAL_BG` for the background), table lookup for indexed
colors, passthrough for RGB. -/
def vt100_color_to_egui (color : Vt100Color) (is_fg : Bool) : Color32 :=
  match color with
  | Vt100Color.default =>
    if is_fg then { r := 36, g := 36, b := 36 } else TERMINAL_BG
  | Vt100Color.idx i => ansi_256_to_color32 i
  | Vt100Color.rgb r g b => { r := r.val, g := g.val, b := b.val }

/-! ## Escape encoder (`key_to_escape`) -/

/-- The `egui::Key` variants `key_to_escape` distinguishes, plus
representatives of the (many) remaining egui key variants, all of which
fall through to the default arm: the letter `B`, `Space`, and `F1`. -/
inductive Key where
  | A | B | C | D | E | K | L | U | W | Z
  | Enter | Tab | Backspace | Escape
  | ArrowUp | ArrowDown | ArrowRight | ArrowLeft
  | Home | End | PageUp | PageDown | Delete
  | Space | F1
  deriving DecidableEq, Repr, Fintype

/-- Modifier set `egui::Modifiers` (only `ctrl` is inspected by the encoder). -/
structure Modifiers where
  alt : Bool
  ctrl : Bool
  shift : Bool
  mac_cmd : Bool
  command : Bool
  deriving DecidableEq, Repr, Fintype

/-- Function `key_to_escape` of `terminal.rs`: with the Control modifier, a
fixed allow-list of letters returns its 1-26 control byte; otherwise a
fixed table of named keys returns its escape sequence; everything else
returns the empty sequence. -/
def key_to_escape (key : Key) (modifiers : Modifiers) : List Nat :=
  let ctrlSeq : Option (List Nat) :=
    if modifiers.ctrl then
      match key with
      | Key.C => some [3]
      | Key.D => some [4]
      | Key.Z => some [26]
      | Key.L => some [12]
      | Key.A => some [1]
      | Key.E => some [5]
      | Key.K => some [11]
      | Key.U => some [21]
      | Key.W => some [23]
      | _ => none
    else none
  match ctrlSeq with
  | some s => s
  | none =>
    match key with
    | Key.Enter => [13]
    | Key.Tab => [9]
    | Key.Backspace => [127]
    | Key.Escape => [27]
    | Key.ArrowUp => [27, 91, 65]
    | Key.ArrowDown => [27, 91, 66]
    | Key.ArrowRight => [27, 91, 67]
    | Key.ArrowLeft => [27, 91, 68]
    | Key.Home => [27, 91, 72]
    | Key.End => [27, 91, 70]
    | Key.PageUp => [27, 91, 53, 126]
    | Key.PageDown => [27, 91, 54, 126]
    | Key.Delete => [27, 91, 51, 126]
    | _ => []

/-- The allow-list of Control-modified letters of `key_to_escape`. -/
def ctrlKeys : List Key :=
  [Key.C, Key.D, Key.Z, Key.L, Key.A, Key.E, Key.K, Key.U, Key.W]

/-- The named keys of the second match of `key_to_escape`. -/
def namedKeys : List Key :=
  [Key.Enter, Key.Tab, Key.Backspace, Key.Escape,
   Key.ArrowUp, Key.ArrowDown, Key.ArrowRight, Key.ArrowLeft,
   Key.Home, Key.End, Key.PageUp, Key.PageDown, Key.Delete]

/-- Whether a key/modifier combination is covered by one of the two
mapping tables of `key_to_escape`. -/
def isMappedCombo (k : Key) (m : Modifiers) : Bool :=
  (m.ctrl && ctrlKeys.contains k) || namedKeys.contains k

/-- Expected color of the 6x6x6 cube component levels: 0 for level 0,
`55 + 40 * level` otherwise. -/
def cubeVal (v : Nat) : Nat :=
  if v = 0 then 0 else 55 + 40 * v

/-- The `Color32` of the fixed 16-entry ANSI table at index `n`. -/
def basicColor (n : Nat) : Color32 :=
  match BASIC.getD n (0, 0, 0) with
  | (r, g, b) => { r := r, g := g, b := b }

/-! ## Helper lemmas -/

theorem commonPrefixLen_le_right (a b : List Char) :
    commonPrefixLen a b ≤ b.length := by
  induction a generalizing b with
  | nil => simp [commonPrefixLen]
  | cons x xs ih =>
    cases b with
    | nil => simp [commonPrefixLen]
    | cons y ys =>
      by_cases h : x = y
      · simpa [commonPrefixLen, h] using ih ys
      · simp [commonPrefixLen, h]

theorem byteLen_ge_length (s : List Char) : s.length ≤ byteLen s := by
  induction s with
  | nil => simp [byteLen]
  | cons c rest ih =>
    have := Char.utf8Size_pos c
    simp only [List.length_cons, byteLen]
    omega

theorem byteLen_of_ascii (s : List Char) (h : ∀ c ∈ s, c.utf8Size = 1) :
    byteLen s = s.length := by
  induction s with
  | nil => rfl
  | cons c rest ih =>
    simp only [byteLen, List.length_cons]
    rw [h c (by simp), ih (fun x hx => h x (by simp [hx]))]
    omega

theorem byteDrop_byteLen_take (s : List Char) (k : Nat) :
    byteDrop s (byteLen (s.take k)) = some (s.drop k) := by
  induction s generalizing k with
  | nil => simp [byteDrop, byteLen]
  | cons c rest ih =>
    cases k with
    | zero => simp [byteDrop, byteLen]
    | succ k =>
      have hpos := Char.utf8Size_pos c
      simp only [List.take_succ_cons, byteLen, List.drop_succ_cons]
      show (if c.utf8Size + byteLen (rest.take k) = 0 then some (c :: rest)
          else if c.utf8Size + byteLen (rest.take k) < c.utf8Size then none
          else byteDrop rest (c.utf8Size + byteLen (rest.take k) - c.utf8Size)) =
        some (rest.drop k)
      rw [if_neg (by omega), if_neg (by omega), Nat.add_sub_cancel_left, ih]

theorem parse_line_last_screen_text (s : AgentViewState) (line : List Char) :
    (parse_line s line).last_screen_text = s.last_screen_text := by
  simp only [parse_line]
  repeat' split
  all_goals rfl

theorem parse_new_content_last_screen_text (s : AgentViewState) (c : List Char) :
    (parse_new_content s c).last_screen_text = s.last_screen_text := by
  unfold parse_new_content
  generalize rustLines c = ls
  induction ls generalizing s with
  | nil => rfl
  | cons l ls ih =>
    simpa [List.foldl, parse_line_last_screen_text] using ih (parse_line s l)

/-! ## Claim theorems -/

/-- C1: a poll with the snapshot text equal to `last_screen_text` is a
no-op; when the current text strictly extends `last_screen_text` the
delta is the suffix beyond it; whenever the poll completes,
`last_screen_text` is replaced by the current text; and the fallback
delta is everything after the longest common prefix whenever that common
prefix is ASCII (in particular `"abc"` to `"abcdef"` gives `"def"`).  But
on a multi-byte common prefix the code uses the character count as a
byte index into the current text: for `last_screen_text = "❯ ls"` and
current text `"❯ cat"` the poll panics (modelled `none`) instead of
producing the claimed delta `"cat"`. -/
theorem poll_output_delta_behavior :
    (∀ (s : AgentViewState) (cur : List Char),
        cur = s.last_screen_text → poll_output s cur = some s) ∧
    (∀ (s : AgentViewState) (cur : List Char) (s' : AgentViewState),
        poll_output s cur = some s' → cur ≠ s.last_screen_text →
        s'.last_screen_text = cur) ∧
    (∀ last cur : List Char,
        byteLen last < byteLen cur → last.isPrefixOf cur = true →
        compute_new_content last cur = some (cur.drop last.length)) ∧
    (∀ last cur : List Char,
        cur ≠ last → ¬(byteLen last < byteLen cur ∧ last.isPrefixOf cur = true) →
        (∀ c ∈ cur.take (commonPrefixLen last cur), c.utf8Size = 1) →
        compute_new_content last cur =
          some (cur.drop (commonPrefixLen last cur))) ∧
    compute_new_content ("abc".toList) ("abcdef".toList) = some ("def".toList) ∧
    compute_new_content ("❯ ls".toList) ("❯ cat".toList) = none ∧
    poll_output
        { messages := [],
          last_screen_text := "❯ ls".toList,
          accumulating_assistant := false }
        ("❯ cat".toList) = none := by
  refine ⟨?_, ?_, ?_, ?_, by decide, by decide, by decide⟩
  · intro s cur h
    simp [poll_output, h]
  · intro s cur s' hpoll hne
    rw [poll_output, if_neg hne] at hpoll
    rcases Option.map_eq_some'.mp hpoll with ⟨nc, hcc, heq⟩
    subst heq
    dsimp only
    split
    · rfl
    · rw [parse_new_content_last_screen_text]
  · intro last cur hlen hpre
    rw [compute_new_content, if_pos ⟨hlen, hpre⟩]
    obtain ⟨t, rfl⟩ := List.isPrefixOf_iff_prefix.mp hpre
    have h := byteDrop_byteLen_take (last ++ t) last.length
    rw [List.take_left] at h
    exact h
  · intro last cur hne hmain hascii
    rw [compute_new_content, if_neg hmain, if_pos hne]
    show (if commonPrefixLen last cur < byteLen cur
        then byteDrop cur (commonPrefixLen last cur) else some []) = _
    by_cases hlt : commonPrefixLen last cur < byteLen cur
    · rw [if_pos hlt]
      have hbl : byteLen (cur.take (commonPrefixLen last cur)) =
          (cur.take (commonPrefixLen last cur)).length :=
        byteLen_of_ascii _ hascii
      have hlen' : (cur.take (commonPrefixLen last cur)).length =
          commonPrefixLen last cur := by
        rw [List.length_take]
        exact min_eq_left (commonPrefixLen_le_right last cur)
      have h := byteDrop_byteLen_take cur (commonPrefixLen last cur)
      rw [hbl, hlen'] at h
      exact h
    · rw [if_neg hlt]
      have h1 : commonPrefixLen last cur ≤ cur.length :=
        commonPrefixLen_le_right last cur
      have h2 : cur.length ≤ byteLen cur := byteLen_ge_length cur
      have h3 : commonPrefixLen last cur = cur.length := by omega
      rw [h3, List.drop_length]

/-- Witness for C1 at concrete inputs: a rewritten screen with no shared
prefix yields the whole current text as the delta. -/
theorem poll_output_delta_behavior_witness :
    compute_new_content ("abc".toList) ("xyzabc".toList) =
      some (("xyzabc".toList).drop
        (commonPrefixLen ("abc".toList) ("xyzabc".toList))) :=
  poll_output_delta_behavior.2.2.2.1 ("abc".toList) ("xyzabc".toList)
    (by decide) (by decide) (by decide)

/-- C5: the background reader loop, as a step function over read
outcomes, continues on every successful non-empty read (feeding the chunk
to the shared state exactly when the lock is available), exits on a
zero-length read or an error, and terminates exactly when such an outcome
occurs; with no such outcome the state is the fold of the lock-available
chunks and the loop is still running. -/
theorem reader_loop_correct {σ : Type} (process : σ → List Nat → σ) :
    (∀ (evs : List ReadEvent) (p : σ) (a : Nat) (c : List Nat) (lk : Bool),
        reader_loop process (ReadEvent.ok (a :: c) lk :: evs) p =
          reader_loop process evs (if lk then process p (a :: c) else p)) ∧
    (∀ (evs : List ReadEvent) (p : σ) (lk : Bool),
        reader_loop process (ReadEvent.ok [] lk :: evs) p = (p, true)) ∧
    (∀ (evs : List ReadEvent) (p : σ),
        reader_loop process (ReadEvent.err :: evs) p = (p, true)) ∧
    (∀ (evs : List ReadEvent) (p : σ),
        (reader_loop process evs p).2 = true ↔ ∃ e ∈ evs, isExitEvent e = true) ∧
    (∀ (evs : List ReadEvent) (p : σ),
        (∀ e ∈ evs, isExitEvent e = false) →
        reader_loop process evs p = ((appliedChunks evs).foldl process p, false)) := by
  refine ⟨?_, ?_, ?_, ?_, ?_⟩
  · intro evs p a c lk
    simp [reader_loop]
  · intro evs p lk
    simp [reader_loop]
  · intro evs p
    simp [reader_loop]
  · intro evs
    induction evs with
    | nil => simp [reader_loop]
    | cons e rest ih =>
      intro p
      cases e with
      | err => simp [reader_loop, isExitEvent]
      | ok chunk lk =>
        cases chunk with
        | nil => simp [reader_loop, isExitEvent]
        | cons a c =>
          simp only [reader_loop]
          rw [if_neg (show ¬(a :: c = []) by simp)]
          rw [ih]
          constructor
          · rintro ⟨e, he, hex⟩
            exact ⟨e, List.mem_cons_of_mem _ he, hex⟩
          · rintro ⟨e, he, hex⟩
            rcases List.mem_cons.mp he with he | he
            · subst he
              simp [isExitEvent] at hex
            · exact ⟨e, he, hex⟩
  · intro evs
    induction evs with
    | nil => intro p _; simp [reader_loop, appliedChunks]
    | cons e rest ih =>
      intro p hall
      cases e with
      | err =>
        have := hall ReadEvent.err (by simp)
        simp [isExitEvent] at this
      | ok chunk lk =>
        cases chunk with
        | nil =>
          have := hall (ReadEvent.ok [] lk) (by simp)
          simp [isExitEvent] at this
        | cons a c =>
          have hrest : ∀ e ∈ rest, isExitEvent e = false := fun e he =>
            hall e (List.mem_cons_of_mem _ he)
          simp only [reader_loop, appliedChunks]
          rw [if_neg (show ¬(a :: c = []) by simp),
            if_neg (show ¬(a :: c = []) by simp)]
          cases lk with
          | true => simpa using ih (process p (a :: c)) hrest
          | false => simpa using ih p hrest

/-- Witness for C5: two non-empty reads, the second with the lock
unavailable, leave the loop running with only the first chunk applied. -/
theorem reader_loop_correct_witness :
    reader_loop (fun (l : List Nat) (c : List Nat) => l ++ c)
        [ReadEvent.ok [1, 2] true, ReadEvent.ok [3] false] [] = ([1, 2], false) := by
  have h := (reader_loop_correct (fun (l : List Nat) (c : List Nat) => l ++ c)).2.2.2.2
      [ReadEvent.ok [1, 2] true, ReadEvent.ok [3] false] [] (by decide)
  simpa using h

/-- C6: calling `Terminal::resize` with the current dimensions changes nothing
(stored dimensions untouched, no `set_size` call into the emulation
state), and resizing twice with the same values equals resizing once, so
the visible snapshot is identical. -/
theorem resize_noop_idempotent :
    (∀ (t : Terminal) (rows cols : Nat),
        t.rows = rows → t.cols = cols → Terminal.resize t rows cols = t) ∧
    (∀ (t : Terminal) (rows cols : Nat),
        Terminal.resize (Terminal.resize t rows cols) rows cols =
          Terminal.resize t rows cols) := by
  have hdims : ∀ (t : Terminal) (rows cols : Nat),
      (Terminal.resize t rows cols).rows = rows ∧
        (Terminal.resize t rows cols).cols = cols := by
    intro t rows cols
    rw [Terminal.resize]
    split
    · exact ⟨rfl, rfl⟩
    · rename_i h
      push_neg at h
      exact ⟨h.1.symm, h.2.symm⟩
  have hnoop : ∀ (t : Terminal) (rows cols : Nat),
      t.rows = rows → t.cols = cols → Terminal.resize t rows cols = t := by
    intro t rows cols hr hc
    rw [Terminal.resize, if_neg]
    push_neg
    exact ⟨hr.symm, hc.symm⟩
  exact ⟨hnoop, fun t rows cols =>
    hnoop _ rows cols (hdims t rows cols).1 (hdims t rows cols).2⟩

/-- Witness for C6: resizing a 24x80 terminal to 24x80 is the identity. -/
theorem resize_noop_idempotent_witness :
    Terminal.resize
        { parser := { rows := 24, cols := 80, set_size_calls := [] },
          rows := 24, cols := 80, id := 0 } 24 80 =
      { parser := { rows := 24, cols := 80, set_size_calls := [] },
        rows := 24, cols := 80, id := 0 } :=
  resize_noop_idempotent.1
    { parser := { rows := 24, cols := 80, set_size_calls := [] },
      rows := 24, cols := 80, id := 0 } 24 80 rfl rfl

set_option maxRecDepth 8192 in
/-- C7: color resolution is total and deterministic: the default color
maps to the distinct theme fallbacks for foreground and background,
indices 0-15 to the fixed 16-entry table, 16-231 to the 6x6x6 cube with
component values 0 or `55 + 40 * level`, 232-255 to the grayscale ramp
`8 + 10 * (index - 232)`, and RGB passes through unchanged. -/
theorem color_resolution_correct :
    (vt100_color_to_egui Vt100Color.default true = { r := 36, g := 36, b := 36 }) ∧
    (vt100_color_to_egui Vt100Color.default false = TERMINAL_BG) ∧
    (vt100_color_to_egui Vt100Color.default true ≠
      vt100_color_to_egui Vt100Color.default false) ∧
    (∀ (r g b : Fin 256) (f : Bool),
        vt100_color_to_egui (Vt100Color.rgb r g b) f =
          { r := r.val, g := g.val, b := b.val }) ∧
    (∀ i : Fin 256, i.val < 16 → ansi_256_to_color32 i = basicColor i.val) ∧
    (∀ i : Fin 256, 16 ≤ i.val → i.val < 232 →
        ansi_256_to_color32 i =
          { r := cubeVal (((i.val - 16) / 36) % 6),
            g := cubeVal (((i.val - 16) / 6) % 6),
            b := cubeVal ((i.val - 16) % 6) }) ∧
    (∀ i : Fin 256, 232 ≤ i.val →
        ansi_256_to_color32 i =
          { r := 8 + 10 * (i.val - 232), g := 8 + 10 * (i.val - 232),
            b := 8 + 10 * (i.val - 232) }) := by
  refine ⟨rfl, rfl, by decide, fun r g b f => rfl, by decide, by decide, by decide⟩

/-- Witness for C7: index 196 resolves through the color-cube formula. -/
theorem color_resolution_correct_witness :
    ansi_256_to_color32 (196 : Fin 256) =
      { r := cubeVal ((((196 : Fin 256).val - 16) / 36) % 6),
        g := cubeVal ((((196 : Fin 256).val - 16) / 6) % 6),
        b := cubeVal (((196 : Fin 256).val - 16) % 6) } :=
  color_resolution_correct.2.2.2.2.2.1 (196 : Fin 256) (by decide) (by decide)

/-- C8: the escape encoder maps each allow-listed letter with Control to
its alphabet-position control byte, and each named key, independent of
Control handling, to its fixed escape sequence. -/
theorem key_to_escape_table_correct :
    (∀ m : Modifiers, m.ctrl = true →
        key_to_escape Key.C m = [3] ∧ key_to_escape Key.D m = [4] ∧
        key_to_escape Key.Z m = [26] ∧ key_to_escape Key.L m = [12] ∧
        key_to_escape Key.A m = [1] ∧ key_to_escape Key.E m = [5] ∧
        key_to_escape Key.K m = [11] ∧ key_to_escape Key.U m = [21] ∧
        key_to_escape Key.W m = [23]) ∧
    (∀ m : Modifiers,
        key_to_escape Key.Enter m = [13] ∧ key_to_escape Key.Tab m = [9] ∧
        key_to_escape Key.Backspace m = [127] ∧
        key_to_escape Key.Escape m = [27] ∧
        key_to_escape Key.ArrowUp m = [27, 91, 65] ∧
        key_to_escape Key.ArrowDown m = [27, 91, 66] ∧
        key_to_escape Key.ArrowRight m = [27, 91, 67] ∧
        key_to_escape Key.ArrowLeft m = [27, 91, 68] ∧
        key_to_escape Key.Home m = [27, 91, 72] ∧
        key_to_escape Key.End m = [27, 91, 70] ∧
        key_to_escape Key.PageUp m = [27, 91, 53, 126] ∧
        key_to_escape Key.PageDown m = [27, 91, 54, 126] ∧
        key_to_escape Key.Delete m = [27, 91, 51, 126]) := by
  constructor
  · decide
  · decide

/-- Witness for C8: Control-C encodes to the ETX byte. -/
theorem key_to_escape_table_correct_witness :
    key_to_escape Key.C
        { alt := false, ctrl := true, shift := false, mac_cmd := false,
          command := false } = [3] :=
  (key_to_escape_table_correct.1
    { alt := false, ctrl := true, shift := false, mac_cmd := false,
      command := false } rfl).1

/-- C9: the escape encoder is total (always returns a sequence),
deterministic (identical arguments give identical sequences), and every
key/modifier combination outside the two mapping tables returns the empty
sequence. -/
theorem key_to_escape_total_correct :
    (∀ (k : Key) (m : Modifiers), ∃ s, key_to_escape k m = s) ∧
    (∀ (k1 k2 : Key) (m1 m2 : Modifiers), k1 = k2 → m1 = m2 →
        key_to_escape k1 m1 = key_to_escape k2 m2) ∧
    (∀ (k : Key) (m : Modifiers),
        isMappedCombo k m = false → key_to_escape k m = []) := by
  refine ⟨fun k m => ⟨key_to_escape k m, rfl⟩, ?_, ?_⟩
  · intro k1 k2 m1 m2 hk hm
    rw [hk, hm]
  · decide

/-- Witness for C9: the unmapped letter B with no modifiers yields the
empty sequence. -/
theorem key_to_escape_total_correct_witness :
    key_to_escape Key.B
        { alt := false, ctrl := false, shift := false, mac_cmd := false,
          command := false } = [] :=
  key_to_escape_total_correct.2.2 Key.B
    { alt := false, ctrl := false, shift := false, mac_cmd := false,
      command := false } (by decide)

/-! ## Lemmas about `modifyLast` and the last-message kind -/

theorem modifyLast_append_singleton (f : ChatMessage → ChatMessage)
    (l : List ChatMessage) (m : ChatMessage) :
    modifyLast f (l ++ [m]) = l ++ [f m] := by
  induction l with
  | nil => rfl
  | cons x xs ih =>
    rcases hxs : xs ++ [m] with _ | ⟨y, ys⟩
    · exact absurd hxs (by simp)
    · calc modifyLast f ((x :: xs) ++ [m]) = modifyLast f (x :: y :: ys) := by
            rw [List.cons_append, hxs]
        _ = x :: modifyLast f (y :: ys) := by simp [modifyLast]
        _ = x :: modifyLast f (xs ++ [m]) := by rw [← hxs]
        _ = x :: (xs ++ [f m]) := by rw [ih]
        _ = (x :: xs) ++ [f m] := by simp

theorem lastIsAssistant_concat (l : List ChatMessage) (m : ChatMessage) :
    lastIsAssistant (l ++ [m]) = isAssistant m.kind := by
  simp [lastIsAssistant, List.getLast?_concat]

theorem kind_appendNewlineIfAssistant (m : ChatMessage) :
    (appendNewlineIfAssistant m).kind = m.kind := by
  unfold appendNewlineIfAssistant
  split <;> rfl

theorem lastIsAssistant_modifyLast (f : ChatMessage → ChatMessage)
    (hf : ∀ m, (f m).kind = m.kind) (l : List ChatMessage) :
    lastIsAssistant (modifyLast f l) = lastIsAssistant l := by
  rcases List.eq_nil_or_concat l with rfl | ⟨l', m, rfl⟩
  · rfl
  · rw [List.concat_eq_append, modifyLast_append_singleton,
      lastIsAssistant_concat, lastIsAssistant_concat, hf]

theorem modifyLast_ne_nil (f : ChatMessage → ChatMessage) (l : List ChatMessage)
    (h : l ≠ []) : modifyLast f l ≠ [] := by
  rcases List.eq_nil_or_concat l with rfl | ⟨l', m, rfl⟩
  · exact absurd rfl h
  · rw [List.concat_eq_append, modifyLast_append_singleton]
    simp

/-! ## The transcript invariant -/

/-- The invariant of the transcript state: whenever the engine is in the
accumulating-assistant state, the message list is non-empty and ends in
an assistant message. -/
def TranscriptInv (s : AgentViewState) : Prop :=
  s.accumulating_assistant = true →
    s.messages ≠ [] ∧ lastIsAssistant s.messages = true

theorem parse_line_preserves_inv (s : AgentViewState) (line : List Char)
    (h : TranscriptInv s) : TranscriptInv (parse_line s line) := by
  simp only [parse_line]
  split
  · split
    · rename_i hacc
      intro _
      obtain ⟨hne, hlast⟩ := h hacc
      dsimp only
      refine ⟨modifyLast_ne_nil _ _ hne, ?_⟩
      rw [lastIsAssistant_modifyLast _ kind_appendNewlineIfAssistant]
      exact hlast
    · exact h
  · split
    · intro habs
      simp at habs
    · split
      · intro habs
        simp at habs
      · split
        · rename_i hcond
          intro _
          obtain ⟨hacc, hlast⟩ := hcond
          have hne : s.messages ≠ [] := by
            intro hnil
            rw [hnil] at hlast
            simp [lastIsAssistant] at hlast
          dsimp only
          refine ⟨modifyLast_ne_nil _ _ hne, ?_⟩
          rw [lastIsAssistant_modifyLast
            (fun m => { kind := m.kind, content := m.content ++ '\n' :: rustTrim line })
            (fun m => rfl)]
          exact hlast
        · intro _
          dsimp only
          refine ⟨by simp, ?_⟩
          rw [lastIsAssistant_concat]
          rfl

/-- C2 counterexample: for the delta line `"  Read(src/main.rs)"` the
appended Tool message's content is the trimmed line, which differs from
the raw line — so the content is not the raw line. -/
theorem tool_line_counterexample :
    (parse_line initAgentView ("  Read(src/main.rs)".toList)).messages =
      [{ kind := MessageKind.tool ("Read".toList) true,
         content := "Read(src/main.rs)".toList }] ∧
    "Read(src/main.rs)".toList ≠ "  Read(src/main.rs)".toList := by
  constructor
  · rfl
  · decide

/-- C2 (amended): a line containing a tool marker leaves the
accumulating-assistant state and appends a Tool message whose content is
the trimmed line and whose collapsed flag is true, named by the first
matching identifier from the fixed tool list, defaulting to `"Tool"`;
the literal line `"Read(src/main.rs)"` yields a Tool message with name
`"Read"` and `collapsed = true`. -/
theorem tool_line_correct :
    (∀ (s : AgentViewState) (line : List Char),
        is_tool_line (rustTrim line) = true →
        parse_line s line =
          { s with
            accumulating_assistant := false,
            messages := s.messages ++
              [{ kind := MessageKind.tool (extract_tool_name (rustTrim line)) true,
                 content := rustTrim line }] }) ∧
    (∀ line : List Char,
        extract_tool_name line =
          (toolNames.find? (fun t => rustContains line (t ++ ['(']))).getD
            ("Tool".toList)) ∧
    parse_line initAgentView ("Read(src/main.rs)".toList) =
      { messages := [{ kind := MessageKind.tool ("Read".toList) true,
                       content := "Read(src/main.rs)".toList }],
        last_screen_text := [], accumulating_assistant := false } := by
  refine ⟨?_, ?_, by rfl⟩
  · intro s line htool
    have hne : rustTrim line ≠ [] := by
      intro hnil
      rw [hnil] at htool
      exact absurd htool (by decide)
    simp [parse_line, hne, htool]
  · intro line
    unfold extract_tool_name
    cases h : toolNames.find? (fun t => rustContains line (t ++ ['('])) <;>
      simp [h]

/-- Witness for C2 (amended) at a concrete state and line. -/
theorem tool_line_correct_witness :
    parse_line initAgentView ("Read(src/main.rs)".toList) =
      { initAgentView with
        accumulating_assistant := false,
        messages := initAgentView.messages ++
          [{ kind := MessageKind.tool
               (extract_tool_name (rustTrim ("Read(src/main.rs)".toList))) true,
             content := rustTrim ("Read(src/main.rs)".toList) }] } :=
  tool_line_correct.1 initAgentView ("Read(src/main.rs)".toList) (by decide)

/-- C3: a non-blank, non-tool, non-prompt line extends the open assistant
message with a newline and the trimmed line when accumulating (the open
block being the last, assistant, message), and otherwise appends a new
Assistant message and enters the accumulating state; a blank line appends
a newline to the open assistant message when accumulating and changes
nothing when idle; the two consecutive lines `"Here is the plan:"` and
`"1. Do X"` produce exactly one Assistant message with both lines joined
by a newline. -/
theorem assistant_accumulation_correct :
    (∀ (s : AgentViewState) (line : List Char),
        rustTrim line ≠ [] → is_tool_line (rustTrim line) = false →
        isPromptLine (rustTrim line) = false →
        (s.accumulating_assistant = true → lastIsAssistant s.messages = true →
          parse_line s line =
            { s with
              messages := modifyLast
                (fun m => { m with content := m.content ++ '\n' :: rustTrim line })
                s.messages }) ∧
        (s.accumulating_assistant = false →
          parse_line s line =
            { s with
              accumulating_assistant := true,
              messages := s.messages ++
                [{ kind := MessageKind.assistant, content := rustTrim line }] })) ∧
    (∀ (s : AgentViewState) (line : List Char),
        rustTrim line = [] →
        (s.accumulating_assistant = false → parse_line s line = s) ∧
        (s.accumulating_assistant = true →
          parse_line s line =
            { s with
              messages := modifyLast appendNewlineIfAssistant s.messages })) ∧
    (∀ m : ChatMessage, isAssistant m.kind = true →
        appendNewlineIfAssistant m = { m with content := m.content ++ ['\n'] }) ∧
    parse_new_content initAgentView ("Here is the plan:\n1. Do X".toList) =
      { messages := [{ kind := MessageKind.assistant,
                       content := "Here is the plan:\n1. Do X".toList }],
        last_screen_text := [], accumulating_assistant := true } := by
  refine ⟨?_, ?_, ?_, by rfl⟩
  · intro s line hne htool hprompt
    constructor
    · intro hacc hlast
      simp [parse_line, hne, htool, hprompt, hacc, hlast]
    · intro hacc
      simp [parse_line, hne, htool, hprompt, hacc]
  · intro s line hblank
    constructor
    · intro hacc
      simp [parse_line, hblank, hacc]
    · intro hacc
      simp [parse_line, hblank, hacc]
  · intro m hm
    simp [appendNewlineIfAssistant, hm]

/-- Witness for C3: a fresh assistant line from the idle state. -/
theorem assistant_accumulation_correct_witness :
    parse_line initAgentView ("Hello".toList) =
      { initAgentView with
        accumulating_assistant := true,
        messages := initAgentView.messages ++
          [{ kind := MessageKind.assistant,
             content := rustTrim ("Hello".toList) }] } :=
  (assistant_accumulation_correct.1 initAgentView ("Hello".toList)
    (by decide) (by decide) (by decide)).2 rfl

/-- C4 counterexample: the delta line `"> "` starts with the prompt
marker `"> "` yet is not discarded (it appends an Assistant message);
the delta line `"> Read(x)"` starts with the same marker yet appends a
Tool message; and submitting the non-empty all-whitespace text `"   "`
appends no User message and writes nothing. -/
theorem user_input_prompt_counterexample :
    (("> ".toList).isPrefixOf ("> ".toList) = true ∧
      (parse_line initAgentView ("> ".toList)).messages =
        [{ kind := MessageKind.assistant, content := ">".toList }]) ∧
    (("> ".toList).isPrefixOf ("> Read(x)".toList) = true ∧
      (parse_line initAgentView ("> Read(x)".toList)).messages =
        [{ kind := MessageKind.tool ("Read".toList) true,
           content := "> Read(x)".toList }]) ∧
    ("   ".toList ≠ [] ∧
      submit_input initAgentView ("   ".toList) = (initAgentView, [])) := by
  exact ⟨⟨by decide, by rfl⟩, ⟨by decide, by rfl⟩, ⟨by decide, by rfl⟩⟩

/-- C4 (amended): a submitted input whose trimmed text is non-empty
appends a User message with the trimmed text, writes the text then a
carriage return to the session, and resets the state to idle; and every
delta line that is not a tool line and whose trimmed form starts with one
of the fixed prompt markers is discarded during polling — it resets the
state to idle and appends no message. -/
theorem user_input_prompt_correct :
    (∀ (s : AgentViewState) (input_buf : List Char),
        rustTrim input_buf ≠ [] →
        submit_input s input_buf =
          ({ s with
             messages := s.messages ++
               [{ kind := MessageKind.user, content := rustTrim input_buf }],
             accumulating_assistant := false },
           [rustTrim input_buf, ['\r']])) ∧
    (∀ (s : AgentViewState) (line : List Char),
        is_tool_line (rustTrim line) = false →
        isPromptLine (rustTrim line) = true →
        parse_line s line = { s with accumulating_assistant := false }) := by
  constructor
  · intro s input_buf hne
    simp [submit_input, hne]
  · intro s line htool hprompt
    have hne : rustTrim line ≠ [] := by
      intro hnil
      rw [hnil] at hprompt
      exact absurd hprompt (by decide)
    simp [parse_line, hne, htool, hprompt]

/-- Witness for C4 (amended): the echoed prompt line `"❯ ls"` is
discarded. -/
theorem user_input_prompt_correct_witness :
    parse_line initAgentView ("❯ ls".toList) =
      { initAgentView with accumulating_assistant := false } :=
  user_input_prompt_correct.2 initAgentView ("❯ ls".toList)
    (by decide) (by decide)

/-- C10: the transcript invariant — whenever the accumulating-assistant
flag is set, the message list is non-empty and ends in an Assistant
message — holds initially and is preserved by the per-line
classification step, by the whole parse, by every poll that completes (a
panicking poll produces no state), and by the user-submission path. -/
theorem transcript_invariant :
    TranscriptInv initAgentView ∧
    (∀ (s : AgentViewState) (line : List Char),
        TranscriptInv s → TranscriptInv (parse_line s line)) ∧
    (∀ (s : AgentViewState) (c : List Char),
        TranscriptInv s → TranscriptInv (parse_new_content s c)) ∧
    (∀ (s : AgentViewState) (cur : List Char) (s' : AgentViewState),
        TranscriptInv s → poll_output s cur = some s' → TranscriptInv s') ∧
    (∀ (s : AgentViewState) (buf : List Char),
        TranscriptInv s → TranscriptInv (submit_input s buf).1) := by
  have hparse : ∀ (s : AgentViewState) (c : List Char),
      TranscriptInv s → TranscriptInv (parse_new_content s c) := by
    intro s c
    rw [parse_new_content]
    generalize rustLines c = ls
    induction ls generalizing s with
    | nil => exact id
    | cons l ls ih =>
      intro h
      exact ih (parse_line s l) (parse_line_preserves_inv s l h)
  refine ⟨?_, parse_line_preserves_inv, hparse, ?_, ?_⟩
  · intro habs
    simp [initAgentView] at habs
  · intro s cur s' h hpoll
    rw [poll_output] at hpoll
    split at hpoll
    · cases hpoll
      exact h
    · rcases Option.map_eq_some'.mp hpoll with ⟨nc, hcc, heq⟩
      subst heq
      have h1 : TranscriptInv { s with last_screen_text := cur } := h
      dsimp only
      split
      · exact h1
      · exact hparse _ _ h1
  · intro s buf h
    rw [submit_input]
    split
    · exact h
    · intro habs
      simp at habs

/-- Witness for C10: the invariant after one classified line from the
initial state. -/
theorem transcript_invariant_witness :
    TranscriptInv (parse_line initAgentView ("hi".toList)) :=
  transcript_invariant.2.1 initAgentView ("hi".toList) transcript_invariant.1

end AioTerminal
